import Mathlib

/-!
Verification development for the `backalgo` conversational backend
(`src/app.py`).  The Python source is shallowly embedded below: strings are
`List Char` (wrapped into `String` at the API boundary), the SQL table behind
SQLAlchemy is a list of rows with `chat_id` as primary key, the remote
completion endpoint is an oracle `Nat → Except String String` (attempt number
to transport failure or response text), and the wall clock is an explicit
timestamp argument.  Each regular-expression transformation of the source is
implemented as an explicit scan with the same leftmost, non-overlapping
semantics that Python's `re.sub`/`re.search`/`re.findall` use on these
particular patterns.
-/

set_option maxRecDepth 8000

namespace Backalgo

/-! ## Character utilities (Python string semantics) -/

/-- Whitespace characters recognised by Python's `str.strip()` and the regex
class `\s` (restricted to ASCII, which is all the source manipulates). -/
def isPySpace (c : Char) : Bool :=
  c = ' ' || c = '\t' || c = '\n' || c = '\r' || c = '\x0b' || c = '\x0c'

/-- Word characters of the regex class `\w` used by the `\b` boundaries in
`classify_query`'s keyword pattern. -/
def isWordChar (c : Char) : Bool := c.isAlphanum || c = '_'

/-- The backquote character, named so proofs can speak about the character a
code-fence marker is made of. -/
def backquote : Char := Char.ofNat 96

/-- Python `str.lower()` on ASCII text. -/
def lowerL (l : List Char) : List Char := l.map Char.toLower

/-- Python `str.strip()`: drop whitespace from both ends. -/
def pstrip (l : List Char) : List Char :=
  ((l.dropWhile isPySpace).reverse.dropWhile isPySpace).reverse

/-- String-level wrapper for `pstrip`. -/
def pstripS (s : String) : String := ⟨pstrip s.data⟩

/-- Python slicing `s[:n]` at the string level. -/
def takeS (s : String) (n : Nat) : String := ⟨s.data.take n⟩

/-! ## Substring machinery -/

/-- Plain substring test, as Python's `pat in s`. -/
def hasSubstr (l pat : List Char) : Bool :=
  match l with
  | [] => pat.isPrefixOf ([] : List Char)
  | c :: t => pat.isPrefixOf (c :: t) || hasSubstr t pat

/-- String-level wrapper for `hasSubstr`. -/
def hasSubstrS (s pat : String) : Bool := hasSubstr s.data pat.data

/-- Fuelled scan for `replaceAll`.  Every step consumes at least one
character, so fuel equal to the text length always suffices; exhausted fuel
returns the remaining text unchanged (unreachable from the wrapper). -/
def replaceAllGo (pat rep : List Char) : Nat → List Char → List Char
  | _, [] => []
  | 0, l => l
  | f + 1, c :: t =>
    if pat.isPrefixOf (c :: t) && !pat.isEmpty then
      rep ++ replaceAllGo pat rep f (t.drop (pat.length - 1))
    else
      c :: replaceAllGo pat rep f t

/-- Leftmost non-overlapping replacement of a literal pattern, as
`re.sub(pat, rep, s)` behaves for a pattern with no metacharacters. -/
def replaceAll (pat rep l : List Char) : List Char :=
  replaceAllGo pat rep l.length l

/-- Case-insensitive prefix test: `pat` (already lowercase) against the
lowercasing of the text. -/
def ciPrefix : List Char → List Char → Bool
  | [], _ => true
  | _ :: _, [] => false
  | p :: ps, c :: cs => (p = c.toLower) && ciPrefix ps cs

/-- Case-insensitive substring test (pattern given lowercase), as
`re.search(pat, s, re.IGNORECASE)` for a literal pattern. -/
def hasSubstrCI (l pat : List Char) : Bool :=
  match l with
  | [] => ciPrefix pat ([] : List Char)
  | c :: t => ciPrefix pat (c :: t) || hasSubstrCI t pat

/-- Fuelled scan for `replaceAllCI`. -/
def replaceAllCIGo (pat rep : List Char) : Nat → List Char → List Char
  | _, [] => []
  | 0, l => l
  | f + 1, c :: t =>
    if ciPrefix pat (c :: t) && !pat.isEmpty then
      rep ++ replaceAllCIGo pat rep f (t.drop (pat.length - 1))
    else
      c :: replaceAllCIGo pat rep f t

/-- Case-insensitive variant of `replaceAll`, as
`re.sub(pat, rep, s, flags=re.IGNORECASE)` for a literal pattern. -/
def replaceAllCI (pat rep l : List Char) : List Char :=
  replaceAllCIGo pat rep l.length l

/-- Index of the first occurrence of `pat` in `l`, if any. -/
def findSub (l pat : List Char) : Option Nat :=
  match l with
  | [] => if pat.isEmpty then some 0 else none
  | c :: t => if pat.isPrefixOf (c :: t) then some 0 else (findSub t pat).map (· + 1)

/-! ## Query classifier (`classify_query`, app.py lines 153-182) -/

/-- The greeting word list of `classify_query`.  The source tests each with
`g in prompt`, i.e. a plain substring check. -/
def greetingWords : List String :=
  ["hi", "hello", "hey", "howdy", "greetings", "salutations", "introduce"]

/-- `any(g in prompt for g in greetings)`. -/
def isGreetingL (p : List Char) : Bool :=
  greetingWords.any (fun g => hasSubstr p g.data)

/-- Literal alternatives of the `tech_keywords` alternation (already
lowercase; the prompt is lowercased before matching and the search is
case-insensitive).  The `O\(.*\)` alternative is handled separately by
`oParenAt`. -/
def techKeywordAlts : List String :=
  ["code", "python", "java", "c++", "javascript", "js", "typescript", "ruby",
   "php", "go", "rust", "kotlin", "swift", "c#", "perl", "scala", "r",
   "matlab", "sql", "nosql", "algorithm", "recursion", "data structure",
   "machine learning", "neural network", "database", "api", "backend",
   "frontend", "ai", "time complexity", "sorting", "engineering",
   "system design", "software", "hardware", "math", "algebra", "calculus",
   "geometry", "statistics", "probability", "optimization", "cloud",
   "devops", "docker", "kubernetes", "git", "aws", "azure", "gcp", "ci",
   "cd", "cybersecurity", "game", "development", "network", "array"]

/-- Word-character test on an optional character; positions outside the
string count as non-word, matching `\b` semantics at the ends. -/
def wordOpt : Option Char → Bool
  | some c => isWordChar c
  | none => false

/-- Match of one literal alternative at the current position, with the `\b`
boundary before the alternation group and after it.  `prev` is the character
just before the current position (`none` at the start of the string). -/
def litKwAt (prev : Option Char) (w l : List Char) : Bool :=
  w.isPrefixOf l && (wordOpt prev != wordOpt w.head?) &&
    (wordOpt w.getLast? != wordOpt ((l.drop w.length).head?))

/-- Scan for the closing parenthesis of the `O\(.*\)` alternative: `.` does
not match a newline, and the trailing `\b` after `)` (a non-word character)
requires a word character immediately after it. -/
def oParenClose : List Char → Bool
  | [] => false
  | c :: t =>
    if c = '\n' then false
    else (c = ')' && wordOpt t.head?) || oParenClose t

/-- Match of the `O\(.*\)` alternative at the current position (lowercased
input, so the `O` is an `o`). -/
def oParenAt (prev : Option Char) (l : List Char) : Bool :=
  match l with
  | 'o' :: '(' :: rest => !wordOpt prev && oParenClose rest
  | _ => false

/-- Search of the whole `tech_keywords` regular expression: some alternative
matches at some position with both boundaries. -/
def kwScan (prev : Option Char) : List Char → Bool
  | [] => false
  | c :: t =>
    techKeywordAlts.any (fun w => litKwAt prev w.data (c :: t)) ||
      oParenAt prev (c :: t) || kwScan (some c) t

/-- Existence of a position where `subB` starts, reachable from the current
position through characters that `.*` may match (no newline). -/
def gapFind (subB : List Char) : List Char → Bool
  | [] => false
  | c :: t => subB.isPrefixOf (c :: t) || (c != '\n' && gapFind subB t)

/-- Search for a pattern of the shape `subA .* subB` (the trailing `.*` or
optional `\??` of the source patterns never affects whether a match exists). -/
def twoPart (subA subB : List Char) : List Char → Bool
  | [] => false
  | c :: t =>
    (subA.isPrefixOf (c :: t) && gapFind subB ((c :: t).drop subA.length)) ||
      twoPart subA subB t

/-- The `tech_patterns` list: each `re.search(p, prompt)` reduced to
substring / two-part searches (patterns ending in `.*` match exactly when
their literal head occurs). -/
def isTechPatternL (p : List Char) : Bool :=
  twoPart ("how does ".data) (" work".data) p ||
  hasSubstr p ("how to ".data) ||
  hasSubstr p ("what is the best way to ".data) ||
  twoPart ("compare ".data) (" vs ".data) p ||
  twoPart ("why is ".data) (" better than ".data) p ||
  twoPart ("how can ".data) (" be improved".data) p ||
  hasSubstr p ("build ".data) ||
  hasSubstr p ("create ".data) ||
  hasSubstr p ("implement ".data) ||
  hasSubstr p ("design ".data) ||
  hasSubstr p ("optimize ".data)

/-- `is_tech`: the keyword regex or any phrase pattern. -/
def isTechL (p : List Char) : Bool := kwScan none p || isTechPatternL p

/-- `is_debugging`: the `debug_patterns` searches. -/
def isDebugL (p : List Char) : Bool :=
  twoPart ("why does this code".data) ("fail".data) p ||
  hasSubstr p ("debug this".data) ||
  hasSubstr p ("fix this code".data) ||
  hasSubstr p ("error in this code".data)

/-- `is_developer`: the `developer_patterns` searches. -/
def isDevL (p : List Char) : Bool :=
  hasSubstr p ("who created".data) ||
  hasSubstr p ("who made".data) ||
  hasSubstr p ("who developed".data) ||
  hasSubstr p ("who is behind".data)

/-- `prompt.strip().lower()` — the normalisation at the top of
`classify_query`.  (Lowercasing and stripping commute on ASCII, so the order
written here is equivalent to the source's strip-then-lower.) -/
def normL (l : List Char) : List Char := pstrip (lowerL l)

/-- String-level normalisation. -/
def normStr (s : String) : String := ⟨normL s.data⟩

/-- The decision cascade of `classify_query` (app.py lines 170-182). -/
def classifyL (l : List Char) : String :=
  let p := normL l
  let g := isGreetingL p
  let t := isTechL p
  let d := isDebugL p
  let dv := isDevL p
  if g && t then "hybrid_greeting_tech"
  else if g && d then "hybrid_greeting_debugging"
  else if dv then "developer"
  else if g then "greeting"
  else if t then "tech"
  else if d then "debugging"
  else "general"

/-- `classify_query` at the string level. -/
def classify_query (s : String) : String := classifyL s.data

/-! ## Response formatter (`format_response`, app.py lines 185-221) -/

/-- Fuelled scan for `removeInst`. -/
def removeInstGo : Nat → List Char → List Char
  | _, [] => []
  | 0, l => l
  | f + 1, c :: t =>
    if ("[INST]".data).isPrefixOf (c :: t) then
      match findSub (t.drop 5) ("[/INST]".data) with
      | some i => removeInstGo f ((t.drop 5).drop (i + 7))
      | none => c :: removeInstGo f t
    else c :: removeInstGo f t

/-- Removal of `\[INST\].*?\[/INST\]` spans (non-greedy, DOTALL): at an
`[INST]` that has a later `[/INST]`, drop through the earliest close and
continue after it; an `[INST]` with no close never matches. -/
def removeInst (l : List Char) : List Char := removeInstGo l.length l

/-- Fuelled scan counting matches of `re.findall(r'```', s)`. -/
def countFencesGo : Nat → List Char → Nat
  | _, [] => 0
  | 0, _ => 0
  | f + 1, c :: t =>
    if ("```".data).isPrefixOf (c :: t) then countFencesGo f (t.drop 2) + 1
    else countFencesGo f t

/-- Number of matches of `re.findall(r'```', s)`: non-overlapping count of
triple-backtick markers. -/
def countFences (l : List Char) : Nat := countFencesGo l.length l

/-- Fuelled scan counting matches of `re.findall(r'```[a-zA-Z]*', s)`. -/
def openFenceCountGo : Nat → List Char → Nat
  | _, [] => 0
  | 0, _ => 0
  | f + 1, c :: t =>
    if ("```".data).isPrefixOf (c :: t) then
      openFenceCountGo f ((t.drop 2).dropWhile Char.isAlpha) + 1
    else openFenceCountGo f t

/-- Number of matches of `re.findall(r'```[a-zA-Z]*', s)` — the source's
`open_blocks` count.  Each match swallows the fence and the following
letters. -/
def openFenceCount (l : List Char) : Nat := openFenceCountGo l.length l

/-- Code-fence repair (app.py lines 193-197): `close_blocks` is computed as
the total fence count minus `open_blocks`, and a closing fence is appended
when `open_blocks > close_blocks`. -/
def fenceFix (l : List Char) : List Char :=
  if hasSubstr l ("```".data) then
    if (openFenceCount l : Int) > (countFences l : Int) - (openFenceCount l : Int) then
      l ++ ("\n```".data)
    else l
  else l

/-- Default example insertion (app.py lines 198-199). -/
def codeExampleFix (l : List Char) : List Char :=
  if hasSubstr l ("Code Example".data) && !hasSubstr l ("```".data) then
    l ++ ("\n**Code Example (Python):**\n```python\nprint(\"Hello, world!\")  # Default example\n```".data)
  else l

/-- Language-label insertion (app.py lines 200-213).  The guarding
`re.search(r"\*\*Code Example $$ ... $$:\*\*", ...)` patterns contain two
consecutive end-of-string anchors followed by further literal characters, so
they can never match; every guard is therefore true and every substitution
runs unconditionally, in source order. -/
def labelFix (l : List Char) : List Char :=
  let l1 := replaceAll ("```python".data) ("**Code Example (Python):**\n```python".data) l
  let l2 := replaceAll ("```java".data) ("**Code Example (Java):**\n```java".data) l1
  let l3 := replaceAll ("```cpp".data) ("**Code Example (C++):**\n```cpp".data) l2
  let l4 := replaceAll ("```javascript".data) ("**Code Example (JavaScript):**\n```javascript".data) l3
  let l5 := replaceAll ("```typescript".data) ("**Code Example (TypeScript):**\n```typescript".data) l4
  let l6 := replaceAll ("```go".data) ("**Code Example (Go):**\n```go".data) l5
  let l7 := replaceAll ("```rust".data) ("**Code Example (Rust):**\n```rust".data) l6
  l7

/-- Match attempt for `\n\s*\n{2,}` after an initial newline, at backtrack
position `k` of the greedy `\s*`: requires two newlines at `k` and then
extends `\n{2,}` greedily.  Returns the matched length past the initial
newline. -/
def blankRunAt (t : List Char) (k : Nat) : Option Nat :=
  if ("\n\n".data).isPrefixOf (t.drop k) then
    some (k + ((t.drop k).takeWhile (fun c => c = '\n')).length)
  else none

/-- Greedy backtracking of `\s*`: try the largest consumption first. -/
def blankBacktrack (t : List Char) : Nat → Option Nat
  | 0 => blankRunAt t 0
  | k + 1 =>
    match blankRunAt t (k + 1) with
    | some m => some m
    | none => blankBacktrack t k

/-- Full match attempt for the part of `\n\s*\n{2,}` after the initial
newline. -/
def matchBlank (t : List Char) : Option Nat :=
  blankBacktrack t (t.takeWhile isPySpace).length

/-- Fuelled scan for `collapseBlank`. -/
def collapseBlankGo : Nat → List Char → List Char
  | _, [] => []
  | 0, l => l
  | f + 1, c :: t =>
    if c = '\n' then
      match matchBlank t with
      | some m => '\n' :: '\n' :: collapseBlankGo f (t.drop m)
      | none => c :: collapseBlankGo f t
    else c :: collapseBlankGo f t

/-- `re.sub(r'\n\s*\n{2,}', '\n\n', s)` (app.py line 191). -/
def collapseBlank (l : List Char) : List Char := collapseBlankGo l.length l

/-- Match of `\s*-\s*` at a line-start position: the greedy leading `\s*` can
only stop at the first non-whitespace character, which must be the `-`; the
trailing `\s*` then takes the following whitespace run.  Returns the matched
length. -/
def bulletMatch (l : List Char) : Option Nat :=
  let n := (l.takeWhile isPySpace).length
  match (l.drop n).head? with
  | some c =>
    if c = '-' then some (n + 1 + ((l.drop (n + 1)).takeWhile isPySpace).length)
    else none
  | none => none

/-- Whether the position right after a span of length `m` is a line start
(the last matched character was a newline). -/
def lineStartAfter (l : List Char) (m : Nat) : Bool :=
  match (l.take m).getLast? with
  | some c => c = '\n'
  | none => false

/-- Fuelled scan for `bulletNorm`. -/
def bulletNormGo : Nat → Bool → List Char → List Char
  | _, _, [] => []
  | 0, _, l => l
  | f + 1, atStart, c :: t =>
    if atStart then
      match bulletMatch (c :: t) with
      | some m => '-' :: ' ' :: bulletNormGo f (lineStartAfter (c :: t) m) (t.drop (m - 1))
      | none => c :: bulletNormGo f (c = '\n') t
    else c :: bulletNormGo f (c = '\n') t

/-- `re.sub(r'^\s*-\s*', '- ', s, flags=re.MULTILINE)` (app.py line 192):
matches may only start at the string start or just after a newline. -/
def bulletNorm (atStart : Bool) (l : List Char) : List Char :=
  bulletNormGo l.length atStart l

/-- `response.split("\n")[0]`. -/
def firstLineL (l : List Char) : List Char := l.takeWhile (fun c => c ≠ '\n')

/-- `re.split(r'(?<=[.!?])\s+', response)[0]`: the prefix up to the first
sentence-ending punctuation character immediately followed by whitespace. -/
def firstSentenceL : List Char → List Char
  | [] => []
  | [c] => [c]
  | c :: d :: t =>
    if (c = '.' || c = '!' || c = '?') && isPySpace d then [c]
    else c :: firstSentenceL (d :: t)

/-- Fixed message used both by the formatter on empty cleaned text and by the
completion client on an empty completion. -/
def errNoResp : String := "Error: No response generated. Please try again."

/-- Length enforcement, the last step of `format_response`
(app.py lines 217-220). -/
def lengthStep (l : List Char) : List Char :=
  if l.length > 3000 then l.take 3000 ++ ("... (response trimmed).".data)
  else if l.length < 50 then l ++ (" Please provide more details if needed.".data)
  else l

/-- Cleaning stage of `format_response` (app.py lines 186-188): persona-name
substitution, instruction-delimiter removal, `<s>` removal, strip. -/
def cleanStage (l : List Char) : List Char :=
  pstrip (replaceAll ("<s>".data) []
    (removeInst (replaceAllCI ("algoai".data) ("the assistant".data) l)))

/-- Middle stage of `format_response` (app.py lines 191-214): blank-line
collapse, bullet normalisation, fence repair, default example, language
labels, newline before every fence. -/
def middleStage (l : List Char) : List Char :=
  replaceAll ("```".data) ("\n```".data)
    (labelFix (codeExampleFix (fenceFix (bulletNorm true (collapseBlank l)))))

/-- Greeting collapse of `format_response` (app.py lines 215-216). -/
def greetStep (l : List Char) : List Char :=
  if classifyL (firstLineL l) = "greeting" then firstSentenceL l ++ [ '.' ] else l

/-- `format_response` (app.py lines 185-221), the stages in source order. -/
def formatL (l : List Char) : List Char :=
  if (cleanStage l).isEmpty then errNoResp.data
  else lengthStep (greetStep (middleStage (cleanStage l)))

/-- `format_response` at the string level. -/
def format_response (s : String) : String := ⟨formatL s.data⟩

/-! ## Conversation store (`ChatHistory` and the database functions,
app.py lines 34-105).  The SQL table is a list of rows; `chat_id` is the
primary key, so SQLAlchemy's `session.merge` updates the row with that key if
one exists and inserts otherwise. -/

/-- One row of the `chat_history` table. -/
structure ChatRow where
  chat_id : String
  user_id : String
  user_msg : String
  ai_msg : String
  timestamp : String
  title : String
  welcome_shown : Nat
deriving DecidableEq

/-- One turn as returned by `get_chat_history`. -/
structure Turn where
  user : String
  ai : String
deriving DecidableEq

/-- `session.merge(chat)` with `chat_id` as primary key: update in place if a
row with that key exists, insert otherwise. -/
def mergeRow (db : List ChatRow) (r : ChatRow) : List ChatRow :=
  if db.any (fun x => x.chat_id = r.chat_id) then
    db.map (fun x => if x.chat_id = r.chat_id then r else x)
  else db ++ [r]

/-- Assistant-text cleaning in `store_chat` (app.py lines 53-54): remove
`[INST]...[/INST]` spans, remove `<s>`, strip. -/
def cleanAiL (l : List Char) : List Char :=
  pstrip (replaceAll ("<s>".data) [] (removeInst l))

/-- String-level wrapper for `cleanAiL`. -/
def cleanAiS (s : String) : String := ⟨cleanAiL s.data⟩

/-- Title computation of `store_chat` (app.py line 52):
`title or (user_msg[:50].strip() if user_msg else f"Chat {chat_id}")[:50]`,
with Python truthiness on the optional title and on `user_msg`. -/
def computeTitle (otitle : Option String) (user_msg chat_id : String) : String :=
  let inner := if user_msg ≠ "" then pstripS (takeS user_msg 50) else "Chat " ++ chat_id
  let inner50 := takeS inner 50
  match otitle with
  | some t => if t = "" then inner50 else t
  | none => inner50

/-- `store_chat` (app.py lines 48-71).  The wall-clock timestamp is passed
explicitly. -/
def store_chat (db : List ChatRow) (chat_id user_id user_msg ai_msg : String)
    (otitle : Option String) (welcome_shown : Nat) (timestamp : String) : List ChatRow :=
  mergeRow db
    { chat_id := chat_id
      user_id := user_id
      user_msg := user_msg
      ai_msg := cleanAiS ai_msg
      timestamp := timestamp
      title := computeTitle otitle user_msg chat_id
      welcome_shown := welcome_shown }

/-- Stable insertion for `ORDER BY timestamp` (string comparison, ascending). -/
def insertByTs (r : ChatRow) : List ChatRow → List ChatRow
  | [] => [r]
  | x :: xs => if x.timestamp ≤ r.timestamp then x :: insertByTs r xs else r :: x :: xs

/-- `ORDER BY timestamp` over a row list. -/
def sortByTs (db : List ChatRow) : List ChatRow := db.foldr insertByTs []

/-- `get_chat_history` (app.py lines 73-83): rows of the conversation in
timestamp order, keeping a row when `user_msg or ai_msg` is truthy. -/
def get_chat_history (db : List ChatRow) (chat_id : String) : List Turn :=
  (sortByTs (db.filter (fun x => x.chat_id = chat_id))).filterMap
    (fun c => if c.user_msg ≠ "" ∨ c.ai_msg ≠ "" then some ⟨c.user_msg, c.ai_msg⟩ else none)

/-- `get_previous_response` (app.py lines 85-94): the assistant text of the
row with the greatest timestamp, if any. -/
def get_previous_response (db : List ChatRow) (chat_id : String) : Option String :=
  (sortByTs (db.filter (fun x => x.chat_id = chat_id))).getLast?.map (fun c => c.ai_msg)

/-- `has_welcome_been_shown` (app.py lines 96-105): the flag of the first row
with this `chat_id`, `0` when there is none. -/
def has_welcome_been_shown (db : List ChatRow) (chat_id : String) : Nat :=
  match (db.filter (fun x => x.chat_id = chat_id)).head? with
  | some c => c.welcome_shown
  | none => 0

/-! ## Completion client (`query_groq`, app.py lines 224-421).  The message
list sent to the endpoint only shapes the request payload, which the
transport oracle abstracts away; the observable outputs modelled are the
returned text, the number of transport attempts and the backoff sleeps. -/

/-- Observable outcome of `query_groq`: the returned text, how many transport
attempts were made, and the `time.sleep(2 ** attempt)` durations. -/
structure GroqOutcome where
  reply : String
  calls : Nat
  sleeps : List Nat
deriving DecidableEq

/-- The follow-up question appended to a successful completion, selected by
the classified mode (app.py lines 269-391).  The joke and non-joke general
branches pick the same follow-up text. -/
def followUpFor (db : List ChatRow) (chat_id : String) (mode : String)
    (deep_dive : Bool) : String :=
  let last := if deep_dive then get_previous_response db chat_id else none
  if mode = "greeting" then
    "**What coding topic would you like to explore today? Feel free to specify a language!**"
  else if mode = "hybrid_greeting_tech" then
    "**Would you like a deeper explanation or a different approach?**"
  else if mode = "hybrid_greeting_debugging" then
    "**Would you like to test the fix or explore error handling further?**"
  else if mode = "tech" then
    (if deep_dive && last.isSome then "**Would you like a different approach or more depth?**"
     else "**Would you like a deeper explanation?**")
  else if mode = "debugging" then
    "**Would you like to test the fix or explore error handling further?**"
  else if mode = "developer" then
    "**Would you like to know more about the development process or try a coding challenge?**"
  else
    (if deep_dive && last.isSome then "**Would you like to dig deeper?**"
     else "**Do you have further questions or want a deeper explanation?**")

/-- The error string returned after the third failed attempt
(app.py line 420). -/
def groqFailMsg (e : String) : String :=
  ⟨("Error: Groq API failed after 3 attemptsâ€”".data) ++ e.data ++ (". Please try again later.".data)⟩

/-- The retry loop of `query_groq` (app.py lines 402-421), by recursion on
the remaining iterations of `for attempt in range(3)`: on success, strip the
completion, report an empty completion as an error, append the follow-up
when it is truthy and not already present; on transport failure with further
iterations remaining, sleep `2 ** attempt` seconds and retry, otherwise (the
source's `attempt == 2`) return the formatted error string.  The
zero-remaining arm mirrors the loop falling through, which no execution
reaches. -/
def groqLoop (oracle : Nat → Except String String) (fu : String) :
    Nat → Nat → GroqOutcome
  | _, 0 => { reply := "", calls := 0, sleeps := [] }
  | attempt, rem + 1 =>
    match oracle attempt with
    | Except.ok content =>
      if pstripS content = "" then { reply := errNoResp, calls := 1, sleeps := [] }
      else
        { reply :=
            if fu ≠ "" ∧ ¬(hasSubstrS (pstripS content) fu = true) then
              pstripS content ++ "\n\n" ++ fu
            else pstripS content
          calls := 1, sleeps := [] }
    | Except.error e =>
      if rem = 0 then { reply := groqFailMsg e, calls := 1, sleeps := [] }
      else
        { reply := (groqLoop oracle fu (attempt + 1) rem).reply
          calls := (groqLoop oracle fu (attempt + 1) rem).calls + 1
          sleeps := 2 ^ attempt :: (groqLoop oracle fu (attempt + 1) rem).sleeps }

/-- The three-attempt retry loop as entered by `query_groq`. -/
def groqTry (oracle : Nat → Except String String) (fu : String) : GroqOutcome :=
  groqLoop oracle fu 0 3

/-- `query_groq` (app.py lines 224-421): classify, check the welcome flag —
returning the fixed prompt-for-next-query string with no transport attempt
when the mode is `greeting` and the flag is set — and otherwise run the retry
loop with the mode's follow-up. -/
def query_groq (db : List ChatRow) (oracle : Nat → Except String String)
    (chat_id prompt : String) (deep_dive : Bool) : GroqOutcome :=
  if classify_query prompt = "greeting" ∧ has_welcome_been_shown db chat_id ≠ 0 then
    { reply := "Please provide your next query.", calls := 0, sleeps := [] }
  else
    groqTry oracle (followUpFor db chat_id (classify_query prompt) deep_dive)

/-- The `/query` handler `get_response` (app.py lines 432-443): run
`query_groq`, format the reply, persist the turn, return the new table and
the formatted response. -/
def get_response (db : List ChatRow) (oracle : Nat → Except String String)
    (user_query chat_id user_id : String) (deep_dive : Bool) (ts : String) :
    List ChatRow × String :=
  (store_chat db chat_id user_id user_query
      (format_response (query_groq db oracle chat_id user_query deep_dive).reply) none 0 ts,
   format_response (query_groq db oracle chat_id user_query deep_dive).reply)

/-! ## Spec-side fence counting.  The spec speaks of "opening" and "closing"
code-fence markers; following its wording, a fence marker immediately
followed by a language letter opens a block and a bare fence marker closes
one. -/

/-- Fuelled scan for `specFenceScan`. -/
def specFenceScanGo : Nat → List Char → Nat × Nat
  | _, [] => (0, 0)
  | 0, _ => (0, 0)
  | f + 1, c :: t =>
    if ("```".data).isPrefixOf (c :: t) then
      match (t.drop 2).head? with
      | some d =>
        if d.isAlpha then ((specFenceScanGo f (t.drop 2)).1 + 1, (specFenceScanGo f (t.drop 2)).2)
        else ((specFenceScanGo f (t.drop 2)).1, (specFenceScanGo f (t.drop 2)).2 + 1)
      | none => ((specFenceScanGo f (t.drop 2)).1, (specFenceScanGo f (t.drop 2)).2 + 1)
    else specFenceScanGo f t

/-- Count of (opening, closing) fence markers in the spec's sense. -/
def specFenceScan (l : List Char) : Nat × Nat := specFenceScanGo l.length l

/-- Cleanliness predicate for the algebraic formatter claims: the text
carries none of the triggers of the cleaning stages (persona token,
instruction delimiters, `<s>`, surrounding whitespace, blank-line runs,
bullet dashes, code fences, `Code Example` mentions) and its first line is
not classified as a greeting. -/
def Tidy (s : String) : Prop :=
  hasSubstrCI s.data ("algoai".data) = false ∧
  hasSubstr s.data ("[INST]".data) = false ∧
  hasSubstr s.data ("<s>".data) = false ∧
  s.data ≠ [] ∧
  (∀ c, s.data.head? = some c → isPySpace c = false) ∧
  (∀ c, s.data.getLast? = some c → isPySpace c = false) ∧
  hasSubstr s.data ("\n\n".data) = false ∧
  s.data.contains '-' = false ∧
  hasSubstr s.data ("```".data) = false ∧
  hasSubstr s.data ("Code Example".data) = false ∧
  classifyL (firstLineL s.data) ≠ "greeting"

instance (s : String) : Decidable (Tidy s) := by
  unfold Tidy
  have h1 : ∀ (l : List Char), Decidable (∀ c, l.head? = some c → isPySpace c = false) := by
    intro l
    cases l with
    | nil => exact isTrue (by intro c h; simp at h)
    | cons a t =>
      by_cases h : isPySpace a = false
      · exact isTrue (by intro c hc; simp at hc; rw [← hc]; exact h)
      · exact isFalse (by intro hall; exact h (hall a (by simp)))
  have h2 : ∀ (l : List Char), Decidable (∀ c, l.getLast? = some c → isPySpace c = false) := by
    intro l
    cases hg : l.getLast? with
    | none => exact isTrue (by intro c h; simp at h)
    | some a =>
      by_cases h : isPySpace a = false
      · exact isTrue (by intro c hc; simp at hc; rw [← hc]; exact h)
      · exact isFalse (by intro hall; exact h (hall a rfl))
  have := h1 s.data
  have := h2 s.data
  exact inferInstance

/-! ## Helper lemmas: substring machinery -/

theorem prefixOf_mem {p l : List Char} (h : p.isPrefixOf l = true) :
    ∀ c ∈ p, c ∈ l := by
  induction p generalizing l with
  | nil => intro c hc; simp at hc
  | cons a as ih =>
    cases l with
    | nil => simp [List.isPrefixOf] at h
    | cons b bs =>
      simp only [List.isPrefixOf, Bool.and_eq_true, beq_iff_eq] at h
      intro c hc
      rcases List.mem_cons.mp hc with h1 | h1
      · exact List.mem_cons.mpr (Or.inl (h1.trans h.1))
      · exact List.mem_cons.mpr (Or.inr (ih h.2 c h1))

theorem prefixOf_trans {p q l : List Char} (h1 : p.isPrefixOf q = true)
    (h2 : q.isPrefixOf l = true) : p.isPrefixOf l = true := by
  induction p generalizing q l with
  | nil => simp [List.isPrefixOf]
  | cons a as ih =>
    cases q with
    | nil => simp [List.isPrefixOf] at h1
    | cons b bs =>
      cases l with
      | nil => simp [List.isPrefixOf] at h2
      | cons d ds =>
        simp only [List.isPrefixOf, Bool.and_eq_true, beq_iff_eq] at *
        exact ⟨h1.1.trans h2.1, ih h1.2 h2.2⟩

theorem hasSubstr_mem {l p : List Char} (h : hasSubstr l p = true) :
    ∀ c ∈ p, c ∈ l := by
  induction l with
  | nil =>
    intro c hc
    simp only [hasSubstr] at h
    cases p with
    | nil => simp at hc
    | cons a as => simp [List.isPrefixOf] at h
  | cons a t ih =>
    simp only [hasSubstr, Bool.or_eq_true] at h
    intro c hc
    rcases h with h | h
    · exact prefixOf_mem h c hc
    · exact List.mem_cons.mpr (Or.inr (ih h c hc))

theorem hasSubstr_mono {l p q : List Char} (hq : q.isPrefixOf p = true)
    (h : hasSubstr l p = true) : hasSubstr l q = true := by
  induction l with
  | nil =>
    simp only [hasSubstr] at *
    exact prefixOf_trans hq h
  | cons a t ih =>
    simp only [hasSubstr, Bool.or_eq_true] at *
    rcases h with h | h
    · exact Or.inl (prefixOf_trans hq h)
    · exact Or.inr (ih h)

theorem hasSubstr_of_prefix {l p : List Char} (h : p.isPrefixOf l = true) :
    hasSubstr l p = true := by
  cases l with
  | nil => simpa [hasSubstr] using h
  | cons a t => simp [hasSubstr, h]

theorem hasSubstr_drop {l p : List Char} (k : Nat)
    (h : p.isPrefixOf (l.drop k) = true) : hasSubstr l p = true := by
  induction k generalizing l with
  | zero => exact hasSubstr_of_prefix (by simpa using h)
  | succ n ih =>
    cases l with
    | nil => exact hasSubstr_of_prefix (by simpa using h)
    | cons a t =>
      simp only [List.drop_succ_cons] at h
      simp [hasSubstr, ih h]

theorem ciPrefix_mem {p l : List Char} (h : ciPrefix p l = true) :
    ∀ c ∈ p, c ∈ lowerL l := by
  induction p generalizing l with
  | nil => intro c hc; simp at hc
  | cons a as ih =>
    cases l with
    | nil => simp [ciPrefix] at h
    | cons b bs =>
      simp only [ciPrefix, Bool.and_eq_true, decide_eq_true_eq] at h
      intro c hc
      rcases List.mem_cons.mp hc with h1 | h1
      · exact List.mem_cons.mpr (Or.inl (h1.trans h.1))
      · exact List.mem_cons.mpr (Or.inr (ih h.2 c h1))

theorem hasSubstrCI_mem {l p : List Char} (h : hasSubstrCI l p = true) :
    ∀ c ∈ p, c ∈ lowerL l := by
  induction l with
  | nil =>
    intro c hc
    simp only [hasSubstrCI] at h
    cases p with
    | nil => simp at hc
    | cons a as => simp [ciPrefix] at h
  | cons a t ih =>
    simp only [hasSubstrCI, Bool.or_eq_true] at h
    intro c hc
    rcases h with h | h
    · exact ciPrefix_mem h c hc
    · exact List.mem_cons.mpr (Or.inr (ih h c hc))

/-! ## Helper lemmas: each formatting pass is the identity when its trigger
is absent -/

theorem replaceAllGo_id {pat : List Char} (rep : List Char) {l : List Char}
    (h : hasSubstr l pat = false) : ∀ f, replaceAllGo pat rep f l = l := by
  induction l with
  | nil => intro f; cases f <;> rfl
  | cons c t ih =>
    intro f
    cases f with
    | zero => rfl
    | succ g =>
      have h' : (pat.isPrefixOf (c :: t) || hasSubstr t pat) = false := h
      have h2 := Bool.or_eq_false_iff.mp h'
      rw [replaceAllGo]
      simp only [h2.1, Bool.false_and, if_neg (Bool.false_ne_true)]
      exact congrArg (c :: ·) (ih h2.2 g)

theorem replaceAll_id {pat : List Char} (rep : List Char) {l : List Char}
    (h : hasSubstr l pat = false) : replaceAll pat rep l = l :=
  replaceAllGo_id rep h _

theorem replaceAllCIGo_id {pat : List Char} (rep : List Char) {l : List Char}
    (h : hasSubstrCI l pat = false) : ∀ f, replaceAllCIGo pat rep f l = l := by
  induction l with
  | nil => intro f; cases f <;> rfl
  | cons c t ih =>
    intro f
    cases f with
    | zero => rfl
    | succ g =>
      have h' : (ciPrefix pat (c :: t) || hasSubstrCI t pat) = false := h
      have h2 := Bool.or_eq_false_iff.mp h'
      rw [replaceAllCIGo]
      simp only [h2.1, Bool.false_and, if_neg (Bool.false_ne_true)]
      exact congrArg (c :: ·) (ih h2.2 g)

theorem replaceAllCI_id {pat : List Char} (rep : List Char) {l : List Char}
    (h : hasSubstrCI l pat = false) : replaceAllCI pat rep l = l :=
  replaceAllCIGo_id rep h _

theorem removeInstGo_id {l : List Char}
    (h : hasSubstr l (("[INST]" : String).data) = false) :
    ∀ f, removeInstGo f l = l := by
  induction l with
  | nil => intro f; cases f <;> rfl
  | cons c t ih =>
    intro f
    cases f with
    | zero => rfl
    | succ g =>
      have h' : ((("[INST]" : String).data).isPrefixOf (c :: t) ||
          hasSubstr t (("[INST]" : String).data)) = false := h
      have h2 := Bool.or_eq_false_iff.mp h'
      rw [removeInstGo]
      simp only [h2.1, if_neg (Bool.false_ne_true)]
      exact congrArg (c :: ·) (ih h2.2 g)

theorem removeInst_id {l : List Char}
    (h : hasSubstr l (("[INST]" : String).data) = false) : removeInst l = l :=
  removeInstGo_id h _

theorem blankRunAt_substr {t : List Char} {k m : Nat}
    (h : blankRunAt t k = some m) : hasSubstr t (("\n\n" : String).data) = true := by
  unfold blankRunAt at h
  by_cases hp : (("\n\n" : String).data).isPrefixOf (t.drop k) = true
  · exact hasSubstr_drop k hp
  · simp [hp] at h

theorem blankBacktrack_substr {t : List Char} {k m : Nat}
    (h : blankBacktrack t k = some m) : hasSubstr t (("\n\n" : String).data) = true := by
  induction k with
  | zero => exact blankRunAt_substr h
  | succ n ih =>
    rw [blankBacktrack] at h
    cases hb : blankRunAt t (n + 1) with
    | some m2 => exact blankRunAt_substr hb
    | none => rw [hb] at h; exact ih h

theorem matchBlank_substr {t : List Char} {m : Nat}
    (h : matchBlank t = some m) : hasSubstr t (("\n\n" : String).data) = true :=
  blankBacktrack_substr h

theorem collapseBlankGo_id {l : List Char}
    (h : hasSubstr l (("\n\n" : String).data) = false) :
    ∀ f, collapseBlankGo f l = l := by
  induction l with
  | nil => intro f; cases f <;> rfl
  | cons c t ih =>
    intro f
    cases f with
    | zero => rfl
    | succ g =>
      have h' : ((("\n\n" : String).data).isPrefixOf (c :: t) || hasSubstr t (("\n\n" : String).data)) = false := h
      have h2 := Bool.or_eq_false_iff.mp h'
      rw [collapseBlankGo]
      by_cases hc : c = '\n'
      · cases hm : matchBlank t with
        | some m =>
          have hx := matchBlank_substr hm
          rw [h2.2] at hx
          exact absurd hx (by decide)
        | none =>
          rw [if_pos hc]
          show c :: collapseBlankGo g t = c :: t
          exact congrArg (c :: ·) (ih h2.2 g)
      · rw [if_neg hc]
        exact congrArg (c :: ·) (ih h2.2 g)

theorem collapseBlank_id {l : List Char}
    (h : hasSubstr l (("\n\n" : String).data) = false) : collapseBlank l = l :=
  collapseBlankGo_id h _

theorem headOpt_mem {l : List Char} {c : Char} (h : l.head? = some c) : c ∈ l := by
  cases l with
  | nil => simp at h
  | cons a t => simp at h; simp [h]

theorem contains_mem {l : List Char} {a : Char} : l.contains a = true ↔ a ∈ l :=
  List.elem_iff

theorem bulletMatch_dash {l : List Char} {m : Nat}
    (h : bulletMatch l = some m) : l.contains '-' = true := by
  simp only [bulletMatch] at h
  split at h
  · next c hh =>
    split at h
    · next hc =>
      have hmem : c ∈ l := List.mem_of_mem_drop (headOpt_mem hh)
      rw [hc] at hmem
      exact contains_mem.mpr hmem
    · exact absurd h (by simp)
  · exact absurd h (by simp)

theorem bulletNormGo_id {l : List Char} (h : l.contains '-' = false) :
    ∀ f b, bulletNormGo f b l = l := by
  induction l with
  | nil => intro f b; cases f <;> rfl
  | cons c t ih =>
    have hnm : ('-' : Char) ∉ c :: t := by
      intro hmem
      rw [contains_mem.mpr hmem] at h
      exact absurd h (by decide)
    have ht : t.contains '-' = false := by
      cases hx : t.contains '-'
      · rfl
      · exact absurd (List.mem_cons_of_mem c (contains_mem.mp hx)) hnm
    intro f b
    cases f with
    | zero => rfl
    | succ g =>
      rw [bulletNormGo]
      cases b with
      | false => exact congrArg (c :: ·) (ih ht g _)
      | true =>
        simp only [if_pos rfl]
        cases hm : bulletMatch (c :: t) with
        | some m =>
          rw [bulletMatch_dash hm] at h
          exact absurd h (by decide)
        | none => exact congrArg (c :: ·) (ih ht g _)

theorem bulletNorm_id {l : List Char} (h : l.contains '-' = false) :
    ∀ b, bulletNorm b l = l := fun b => bulletNormGo_id h _ b

theorem pstrip_id {l : List Char}
    (h1 : ∀ c, l.head? = some c → isPySpace c = false)
    (h2 : ∀ c, l.getLast? = some c → isPySpace c = false) : pstrip l = l := by
  unfold pstrip
  cases l with
  | nil => rfl
  | cons a t =>
    have ha : isPySpace a = false := h1 a rfl
    rw [List.dropWhile_cons, ha, if_neg (by decide)]
    cases hg : (a :: t).getLast? with
    | none => simp at hg
    | some d =>
      have hd : isPySpace d = false := h2 d hg
      have hrev : (a :: t).reverse.head? = some d := by
        rw [List.head?_reverse]; exact hg
      cases hr : (a :: t).reverse with
      | nil => simp at hr
      | cons x xs =>
        rw [hr] at hrev
        simp only [List.head?_cons, Option.some.injEq] at hrev
        rw [List.dropWhile_cons, hrev, hd, if_neg (by decide)]
        rw [← hrev, ← hr, List.reverse_reverse]

theorem pstrip_nil {l : List Char} (h : ∀ c ∈ l, isPySpace c = true) :
    pstrip l = [] := by
  unfold pstrip
  rw [List.dropWhile_eq_nil_iff.mpr h]
  simp

/-! ## Helper lemmas: the fence counters of `format_response` -/

theorem fence_data : ("```" : String).data = [backquote, backquote, backquote] := by
  decide

theorem fence_not_prefix_of_alpha {a : Char} (t : List Char)
    (hA : a.isAlpha = true) : (("```" : String).data).isPrefixOf (a :: t) = false := by
  rw [fence_data]
  have hne : (backquote == a) = false := by
    rw [beq_eq_false_iff_ne]
    intro he
    rw [← he] at hA
    exact absurd hA (by decide)
  simp [List.isPrefixOf, hne]

theorem dropWhile_length_le (p : Char → Bool) (m : List Char) :
    (m.dropWhile p).length ≤ m.length := by
  induction m with
  | nil => simp [List.dropWhile]
  | cons a u ih =>
    rw [List.dropWhile_cons]
    split
    · exact Nat.le_trans ih (Nat.le_succ _)
    · exact Nat.le_refl _

theorem countFencesGo_congr : ∀ (f1 f2 : Nat) (l : List Char),
    l.length ≤ f1 → l.length ≤ f2 → countFencesGo f1 l = countFencesGo f2 l := by
  intro f1
  induction f1 with
  | zero =>
    intro f2 l h1 h2
    have : l = [] := List.length_eq_zero.mp (Nat.le_zero.mp h1)
    subst this
    cases f2 <;> rfl
  | succ g1 ih =>
    intro f2 l h1 h2
    cases l with
    | nil => cases f2 <;> rfl
    | cons c t =>
      cases f2 with
      | zero => simp at h2
      | succ g2 =>
        rw [countFencesGo, countFencesGo]
        simp only [List.length_cons] at h1 h2
        by_cases hp : (("```" : String).data).isPrefixOf (c :: t) = true
        · rw [if_pos hp, if_pos hp]
          have hd : (t.drop 2).length ≤ g1 := by
            rw [List.length_drop]; omega
          have hd2 : (t.drop 2).length ≤ g2 := by
            rw [List.length_drop]; omega
          rw [ih g2 (t.drop 2) hd hd2]
        · rw [if_neg hp, if_neg hp, ih g2 t (by omega) (by omega)]

theorem countFencesGo_dropWhile (l : List Char) :
    ∀ (f : Nat), l.length ≤ f →
      countFencesGo f (l.dropWhile Char.isAlpha) = countFencesGo f l := by
  induction l with
  | nil =>
    intro f hf
    rw [show ([] : List Char).dropWhile Char.isAlpha = [] from rfl]
  | cons a t ih =>
    intro f hf
    cases f with
    | zero => simp at hf
    | succ g =>
      simp only [List.length_cons] at hf
      rw [List.dropWhile_cons]
      by_cases hA : a.isAlpha = true
      · rw [if_pos hA]
        have hl1 : (t.dropWhile Char.isAlpha).length ≤ g :=
          Nat.le_trans (dropWhile_length_le _ t) (by omega)
        rw [countFencesGo_congr (g + 1) g (t.dropWhile Char.isAlpha)
          (Nat.le_trans hl1 (Nat.le_succ g)) hl1]
        rw [ih g (by omega)]
        rw [countFencesGo, fence_not_prefix_of_alpha t hA, if_neg (by decide)]
      · rw [if_neg (by simpa using hA)]

theorem openFenceCountGo_eq : ∀ (f : Nat) (l : List Char), l.length ≤ f →
    openFenceCountGo f l = countFencesGo f l := by
  intro f
  induction f with
  | zero =>
    intro l hf
    cases l <;> rfl
  | succ g ih =>
    intro l hf
    cases l with
    | nil => rfl
    | cons c t =>
      simp only [List.length_cons] at hf
      rw [openFenceCountGo, countFencesGo]
      by_cases hp : (("```" : String).data).isPrefixOf (c :: t) = true
      · rw [if_pos hp, if_pos hp]
        have hlen : ((t.drop 2).dropWhile Char.isAlpha).length ≤ g :=
          Nat.le_trans (dropWhile_length_le _ _) (by rw [List.length_drop]; omega)
        rw [ih _ hlen]
        have hlen2 : (t.drop 2).length ≤ g := by rw [List.length_drop]; omega
        rw [countFencesGo_congr g (g + 1) ((t.drop 2).dropWhile Char.isAlpha)
          hlen (Nat.le_trans hlen (Nat.le_succ g))]
        rw [countFencesGo_dropWhile (t.drop 2) (g + 1) (Nat.le_trans hlen2 (Nat.le_succ g))]
        rw [countFencesGo_congr (g + 1) g (t.drop 2)
          (Nat.le_trans hlen2 (Nat.le_succ g)) hlen2]
      · rw [if_neg hp, if_neg hp, ih _ (by omega)]

theorem openFenceCount_eq (l : List Char) : openFenceCount l = countFences l :=
  openFenceCountGo_eq l.length l (Nat.le_refl _)

theorem countFencesGo_pos {l : List Char} : ∀ {f : Nat}, l.length ≤ f →
    hasSubstr l (("```" : String).data) = true → 1 ≤ countFencesGo f l := by
  induction l with
  | nil => intro f _ h; exact absurd h (by decide)
  | cons c t ih =>
    intro f hf h
    cases f with
    | zero => simp at hf
    | succ g =>
      simp only [List.length_cons] at hf
      have h' : ((("```" : String).data).isPrefixOf (c :: t) || hasSubstr t (("```" : String).data)) = true := h
      rw [countFencesGo]
      by_cases hp : (("```" : String).data).isPrefixOf (c :: t) = true
      · rw [if_pos hp]; omega
      · rw [if_neg hp]
        have h2 : hasSubstr t (("```" : String).data) = true := by
          rcases Bool.or_eq_true_iff.mp h' with hx | hx
          · exact absurd hx hp
          · exact hx
        exact ih (by omega) h2

theorem countFences_pos {l : List Char}
    (h : hasSubstr l (("```" : String).data) = true) : 1 ≤ countFences l :=
  countFencesGo_pos (Nat.le_refl _) h

theorem fenceFix_id {l : List Char}
    (h : hasSubstr l (("```" : String).data) = false) : fenceFix l = l := by
  unfold fenceFix
  rw [h, if_neg (by decide)]

theorem hasSubstr_false_of_prefix_false {l p q : List Char}
    (hq : q.isPrefixOf p = true) (h : hasSubstr l q = false) :
    hasSubstr l p = false := by
  cases hx : hasSubstr l p
  · rfl
  · rw [hasSubstr_mono hq hx] at h
    exact absurd h (by decide)

theorem codeExampleFix_id {l : List Char}
    (h : hasSubstr l (("Code Example" : String).data) = false) :
    codeExampleFix l = l := by
  unfold codeExampleFix
  rw [h]
  simp

theorem labelFix_id {l : List Char}
    (h : hasSubstr l (("```" : String).data) = false) : labelFix l = l := by
  have h1 := hasSubstr_false_of_prefix_false (p := ("```python" : String).data) (by decide) h
  have h2 := hasSubstr_false_of_prefix_false (p := ("```java" : String).data) (by decide) h
  have h3 := hasSubstr_false_of_prefix_false (p := ("```cpp" : String).data) (by decide) h
  have h4 := hasSubstr_false_of_prefix_false (p := ("```javascript" : String).data) (by decide) h
  have h5 := hasSubstr_false_of_prefix_false (p := ("```typescript" : String).data) (by decide) h
  have h6 := hasSubstr_false_of_prefix_false (p := ("```go" : String).data) (by decide) h
  have h7 := hasSubstr_false_of_prefix_false (p := ("```rust" : String).data) (by decide) h
  simp only [labelFix]
  rw [replaceAll_id _ h1, replaceAll_id _ h2, replaceAll_id _ h3, replaceAll_id _ h4,
    replaceAll_id _ h5, replaceAll_id _ h6, replaceAll_id _ h7]

/-! ## Helper lemmas: the length-enforcement step -/

theorem lengthStep_ne_nil (l : List Char) : lengthStep l ≠ [] := by
  unfold lengthStep
  by_cases h1 : l.length > 3000
  · rw [if_pos h1]
    intro he
    exact absurd (List.append_eq_nil.mp he).2 (by decide)
  · rw [if_neg h1]
    by_cases h2 : l.length < 50
    · rw [if_pos h2]
      intro he
      exact absurd (List.append_eq_nil.mp he).2 (by decide)
    · rw [if_neg h2]
      intro he
      rw [he] at h2
      simp at h2

theorem lengthStep_le (l : List Char) : (lengthStep l).length ≤ 3023 := by
  unfold lengthStep
  by_cases h1 : l.length > 3000
  · rw [if_pos h1]
    have h3 : (("... (response trimmed)." : String).data).length = 23 := by decide
    rw [List.length_append, List.length_take, h3]
    omega
  · rw [if_neg h1]
    by_cases h2 : l.length < 50
    · rw [if_pos h2]
      have h3 : ((" Please provide more details if needed." : String).data).length = 39 := by decide
      rw [List.length_append, h3]
      omega
    · rw [if_neg h2]
      omega

/-! ## Helper lemmas: the classifier cascade -/

theorem classifyL_greeting_iff (l : List Char) :
    classifyL l = "greeting" ↔
      (isGreetingL (normL l) = true ∧ isTechL (normL l) = false ∧
       isDebugL (normL l) = false ∧ isDevL (normL l) = false) := by
  unfold classifyL
  cases hg : isGreetingL (normL l) <;> cases ht : isTechL (normL l) <;>
    cases hd : isDebugL (normL l) <;> cases hv : isDevL (normL l) <;>
    simp [hg, ht, hd, hv]

/-! ## Helper lemma: `format_response` is a pure length check on tidy text -/

theorem cleanStage_tidy {s : String} (ht : Tidy s) : cleanStage s.data = s.data := by
  obtain ⟨hci, hinst, hs, hne, hh, hl, hbl, hdash, hfe, hce, hgr⟩ := ht
  unfold cleanStage
  rw [replaceAllCI_id _ hci, removeInst_id hinst, replaceAll_id _ hs,
    pstrip_id hh hl]

theorem middleStage_tidy {s : String} (ht : Tidy s) : middleStage s.data = s.data := by
  obtain ⟨hci, hinst, hs, hne, hh, hl, hbl, hdash, hfe, hce, hgr⟩ := ht
  unfold middleStage
  rw [collapseBlank_id hbl, bulletNorm_id hdash true, fenceFix_id hfe,
    codeExampleFix_id hce, labelFix_id hfe, replaceAll_id _ hfe]

theorem formatL_tidy {s : String} (ht : Tidy s) :
    formatL s.data = lengthStep s.data := by
  have hgr := ht.2.2.2.2.2.2.2.2.2.2
  have hne := ht.2.2.2.1
  unfold formatL
  rw [cleanStage_tidy ht]
  rw [if_neg (by simpa using hne)]
  rw [middleStage_tidy ht]
  unfold greetStep
  rw [if_neg hgr]

/-! ## Helper lemmas: the conversation store -/

theorem mergeRow_absorb {db : List ChatRow} {r1 r2 : ChatRow}
    (h : r1.chat_id = r2.chat_id) :
    mergeRow (mergeRow db r1) r2 = mergeRow db r2 := by
  unfold mergeRow
  by_cases ha : db.any (fun x => x.chat_id = r1.chat_id) = true
  · obtain ⟨x, hx, hxid⟩ := List.any_eq_true.mp ha
    have hxid2 : x.chat_id = r1.chat_id := of_decide_eq_true hxid
    have ha2 : db.any (fun x => x.chat_id = r2.chat_id) = true :=
      List.any_eq_true.mpr ⟨x, hx, decide_eq_true (hxid2.trans h)⟩
    have hb : (db.map (fun x => if x.chat_id = r1.chat_id then r1 else x)).any
        (fun x => x.chat_id = r2.chat_id) = true := by
      rw [List.any_map]
      refine List.any_eq_true.mpr ⟨x, hx, ?_⟩
      simp only [Function.comp]
      exact decide_eq_true (by rw [if_pos hxid2]; exact h)
    rw [if_pos ha, if_pos hb, if_pos ha2, List.map_map]
    apply List.map_congr_left
    intro y hy
    simp only [Function.comp]
    by_cases hyid : y.chat_id = r1.chat_id
    · rw [if_pos hyid, if_pos h, if_pos (hyid.trans h)]
    · rw [if_neg hyid, if_neg (fun hc => hyid (hc.trans h.symm))]
  · have hfalse : db.any (fun x => x.chat_id = r1.chat_id) = false :=
      Bool.eq_false_iff.mpr ha
    have ha2 : db.any (fun x => x.chat_id = r2.chat_id) = false := by
      cases hz : db.any (fun x => x.chat_id = r2.chat_id) with
      | false => rfl
      | true =>
        obtain ⟨x, hx, hxid⟩ := List.any_eq_true.mp hz
        have : x.chat_id = r1.chat_id := (of_decide_eq_true hxid).trans h.symm
        rw [List.any_eq_true.mpr ⟨x, hx, decide_eq_true this⟩] at hfalse
        exact absurd hfalse (by decide)
    have hb : ((db ++ [r1]).any (fun x => x.chat_id = r2.chat_id)) = true := by
      refine List.any_eq_true.mpr ⟨r1, ?_, decide_eq_true h⟩
      simp
    rw [if_neg ha, if_pos hb, if_neg (by rw [ha2]; exact fun hc => absurd hc (by decide))]
    rw [List.map_append]
    have hmapgen : ∀ (ds : List ChatRow), (∀ y ∈ ds, ¬(y.chat_id = r2.chat_id)) →
        ds.map (fun x => if x.chat_id = r2.chat_id then r2 else x) = ds := by
      intro ds hds
      induction ds with
      | nil => rfl
      | cons a t ih =>
        rw [List.map_cons, if_neg (hds a (by simp)),
          ih (fun y hy => hds y (by simp [hy]))]
    have hmap : db.map (fun x => if x.chat_id = r2.chat_id then r2 else x) = db := by
      apply hmapgen
      intro y hy hc
      have : db.any (fun x => x.chat_id = r2.chat_id) = true :=
        List.any_eq_true.mpr ⟨y, hy, decide_eq_true hc⟩
      rw [this] at ha2
      exact absurd ha2 (by decide)
    rw [hmap]
    have : ([r1].map (fun x => if x.chat_id = r2.chat_id then r2 else x)) = [r2] := by
      simp [if_pos h]
    rw [this]

theorem filter_map_replace {ds : List ChatRow} {r : ChatRow}
    (hno : r.chat_id ∉ ds.map (fun x => x.chat_id)) :
    (ds.map (fun x => if x.chat_id = r.chat_id then r else x)).filter
      (fun x => x.chat_id = r.chat_id) = [] := by
  induction ds with
  | nil => rfl
  | cons d dd ih =>
    simp only [List.map_cons, List.mem_cons] at hno
    push_neg at hno
    have hd : ¬(d.chat_id = r.chat_id) := fun hc => hno.1 hc.symm
    rw [List.map_cons, if_neg hd, List.filter_cons]
    rw [if_neg (by simpa using hd)]
    exact ih hno.2

theorem filter_map_nodup {db : List ChatRow} {r : ChatRow}
    (hnd : (db.map (fun x => x.chat_id)).Nodup)
    (ha : db.any (fun x => x.chat_id = r.chat_id) = true) :
    (db.map (fun x => if x.chat_id = r.chat_id then r else x)).filter
      (fun x => x.chat_id = r.chat_id) = [r] := by
  induction db with
  | nil => simp at ha
  | cons d ds ih =>
    rw [List.map_cons, List.nodup_cons] at hnd
    by_cases hd : d.chat_id = r.chat_id
    · rw [List.map_cons, if_pos hd, List.filter_cons, if_pos (by simp)]
      have hno : r.chat_id ∉ ds.map (fun x => x.chat_id) := by
        rw [← hd]; exact hnd.1
      rw [filter_map_replace hno]
    · rw [List.map_cons, if_neg hd, List.filter_cons, if_neg (by simpa using hd)]
      have ha2 : ds.any (fun x => x.chat_id = r.chat_id) = true := by
        rw [List.any_cons] at ha
        rcases Bool.or_eq_true_iff.mp ha with hx | hx
        · exact absurd (of_decide_eq_true hx) hd
        · exact hx
      exact ih hnd.2 ha2

theorem filter_mergeRow (db : List ChatRow) (r : ChatRow)
    (hnd : (db.map (fun x => x.chat_id)).Nodup) :
    (mergeRow db r).filter (fun x => x.chat_id = r.chat_id) = [r] := by
  unfold mergeRow
  by_cases ha : db.any (fun x => x.chat_id = r.chat_id) = true
  · rw [if_pos ha]
    exact filter_map_nodup hnd ha
  · rw [if_neg ha]
    rw [List.filter_append]
    have h1 : db.filter (fun x => x.chat_id = r.chat_id) = [] := by
      rw [List.filter_eq_nil_iff]
      intro x hx hc
      exact ha (List.any_eq_true.mpr ⟨x, hx, hc⟩)
    rw [h1, List.filter_cons]
    simp

theorem get_after_store {db : List ChatRow} {cid uid u a : String}
    {ot : Option String} {w : Nat} {ts : String}
    (hnd : (db.map (fun x => x.chat_id)).Nodup)
    (hkeep : u ≠ "" ∨ cleanAiS a ≠ "") :
    get_chat_history (store_chat db cid uid u a ot w ts) cid = [⟨u, cleanAiS a⟩] := by
  unfold get_chat_history store_chat
  have hf := filter_mergeRow db
    { chat_id := cid, user_id := uid, user_msg := u, ai_msg := cleanAiS a,
      timestamp := ts, title := computeTitle ot u cid, welcome_shown := w } hnd
  rw [hf, sortByTs]
  show ([({ chat_id := cid, user_id := uid, user_msg := u, ai_msg := cleanAiS a,
            timestamp := ts, title := computeTitle ot u cid, welcome_shown := w } : ChatRow)]).filterMap _ = _
  rw [List.filterMap_cons]
  rw [if_pos hkeep]
  rfl

/-! ## Helper lemmas: the completion client's retry loop -/

theorem groqTry_allFail {oracle : Nat → Except String String} {fu : String}
    {e : String} (hO : ∀ n, oracle n = Except.error e) :
    groqTry oracle fu = { reply := groqFailMsg e, calls := 3, sleeps := [1, 2] } := by
  have h2 : groqLoop oracle fu 2 1 = { reply := groqFailMsg e, calls := 1, sleeps := [] } := by
    rw [groqLoop, hO 2]
    simp
  have h1 : groqLoop oracle fu 1 2 = { reply := groqFailMsg e, calls := 2, sleeps := [2] } := by
    rw [groqLoop, hO 1]
    simp [h2]
  have h0 : groqLoop oracle fu 0 3 = { reply := groqFailMsg e, calls := 3, sleeps := [1, 2] } := by
    rw [groqLoop, hO 0]
    simp [h1]
  exact h0

theorem groqFailMsg_data (e : String) :
    (groqFailMsg e).data =
      ("Error: Groq API failed after 3 attemptsâ€”" : String).data ++ e.data ++
        (". Please try again later." : String).data := rfl

theorem groqFailMsg_head (e : String) : (groqFailMsg e).data.head? = some 'E' := by
  rw [groqFailMsg_data]
  have hp : ("Error: Groq API failed after 3 attemptsâ€”" : String).data =
      'E' :: ("rror: Groq API failed after 3 attemptsâ€”" : String).data := by decide
  rw [hp]
  rfl

theorem groqFailMsg_last (e : String) : (groqFailMsg e).data.getLast? = some '.' := by
  rw [groqFailMsg_data, List.getLast?_append]
  rw [show ((". Please try again later." : String).data.getLast?) = some '.' from by decide]
  rfl

theorem groqFailMsg_ne_empty (e : String) : groqFailMsg e ≠ "" := by
  intro hc
  have hnone : (groqFailMsg e).data.head? = none := by rw [hc]; rfl
  rw [groqFailMsg_head e] at hnone
  exact absurd hnone (by decide)

theorem cleanAi_groqFailMsg {e : String}
    (hin : hasSubstrS (groqFailMsg e) "[INST]" = false)
    (hse : hasSubstrS (groqFailMsg e) "<s>" = false) :
    cleanAiS (groqFailMsg e) = groqFailMsg e := by
  unfold cleanAiS cleanAiL
  rw [removeInst_id hin, replaceAll_id _ hse]
  rw [pstrip_id]
  · intro c hc
    rw [groqFailMsg_head e] at hc
    cases hc
    decide
  · intro c hc
    rw [groqFailMsg_last e] at hc
    cases hc
    decide

theorem prefixOf_append_self (p rest : List Char) :
    p.isPrefixOf (p ++ rest) = true := by
  induction p with
  | nil => simp [List.isPrefixOf]
  | cons a t ih => simp [List.isPrefixOf, List.cons_append, ih]

theorem hasSubstr_error_prefix (e : String) :
    hasSubstrS (groqFailMsg e) "Error" = true := by
  unfold hasSubstrS
  apply hasSubstr_of_prefix
  rw [groqFailMsg_data]
  have hp : ("Error: Groq API failed after 3 attemptsâ€”" : String).data =
      ("Error" : String).data ++ (": Groq API failed after 3 attemptsâ€”" : String).data := by decide
  rw [hp]
  simp only [List.append_assoc]
  exact prefixOf_append_self _ _

/-! ## Helper lemmas: concrete witness texts (replicated characters,
whitespace-only strings) -/

theorem takeWhile_eq_self_of {p : Char → Bool} {l : List Char}
    (h : ∀ c ∈ l, p c = true) : l.takeWhile p = l := by
  induction l with
  | nil => rfl
  | cons a t ih =>
    rw [List.takeWhile_cons, h a (by simp)]
    rw [ih (fun c hc => h c (by simp [hc])), if_pos rfl]

theorem hasSubstr_replicate_false {n : Nat} {c x : Char} {pat : List Char}
    (hx : x ∈ pat) (hne : x ≠ c) : hasSubstr (List.replicate n c) pat = false := by
  cases hs : hasSubstr (List.replicate n c) pat
  · rfl
  · exact absurd (List.eq_of_mem_replicate (hasSubstr_mem hs x hx)) hne

theorem hasSubstrCI_replicate_q_false {n : Nat} {x : Char} {pat : List Char}
    (hx : x ∈ pat) (hne : x ≠ 'q') :
    hasSubstrCI (List.replicate n 'q') pat = false := by
  cases hs : hasSubstrCI (List.replicate n 'q') pat
  · rfl
  · have hmem := hasSubstrCI_mem hs x hx
    rw [lowerL, List.map_replicate] at hmem
    exact absurd (List.eq_of_mem_replicate hmem) (by simpa using hne)

theorem contains_replicate_q_false (n : Nat) :
    (List.replicate n 'q').contains '-' = false := by
  cases hs : (List.replicate n 'q').contains '-'
  · rfl
  · exact absurd (List.eq_of_mem_replicate (contains_mem.mp hs)) (by decide)

theorem head_replicate_q {n : Nat} {c : Char}
    (h : (List.replicate n 'q').head? = some c) : c = 'q' := by
  cases n with
  | zero => simp at h
  | succ m =>
    rw [List.replicate_succ] at h
    simpa using h.symm

theorem last_replicate_q {n : Nat} {c : Char}
    (h : (List.replicate n 'q').getLast? = some c) : c = 'q' := by
  rw [← List.head?_reverse, List.reverse_replicate] at h
  exact head_replicate_q h

theorem normL_replicate_q (n : Nat) :
    normL (List.replicate n 'q') = List.replicate n 'q' := by
  unfold normL lowerL
  rw [List.map_replicate]
  rw [show ('q'.toLower) = 'q' from by decide]
  exact pstrip_id
    (fun c hc => by rw [head_replicate_q hc]; decide)
    (fun c hc => by rw [last_replicate_q hc]; decide)

theorem isGreetingL_replicate_q (n : Nat) :
    isGreetingL (List.replicate n 'q') = false := by
  simp only [isGreetingL, greetingWords, List.any_cons, List.any_nil]
  rw [hasSubstr_replicate_false (x := 'h') (by decide) (by decide),
    hasSubstr_replicate_false (x := 'h') (by decide) (by decide),
    hasSubstr_replicate_false (x := 'h') (by decide) (by decide),
    hasSubstr_replicate_false (x := 'h') (by decide) (by decide),
    hasSubstr_replicate_false (x := 'g') (by decide) (by decide),
    hasSubstr_replicate_false (x := 's') (by decide) (by decide),
    hasSubstr_replicate_false (x := 'i') (by decide) (by decide)]
  rfl

theorem tidy_replicate_q (n : Nat) (hn : n ≠ 0) :
    Tidy (String.mk (List.replicate n 'q')) := by
  refine ⟨?_, ?_, ?_, ?_, ?_, ?_, ?_, ?_, ?_, ?_, ?_⟩
  · exact hasSubstrCI_replicate_q_false (x := 'a') (by decide) (by decide)
  · exact hasSubstr_replicate_false (x := '[') (by decide) (by decide)
  · exact hasSubstr_replicate_false (x := '<') (by decide) (by decide)
  · show (List.replicate n 'q') ≠ []
    cases n with
    | zero => exact absurd rfl hn
    | succ m =>
      rw [List.replicate_succ]
      exact List.cons_ne_nil _ _
  · intro c hc
    rw [head_replicate_q hc]
    decide
  · intro c hc
    rw [last_replicate_q hc]
    decide
  · exact hasSubstr_replicate_false (x := '\n') (by decide) (by decide)
  · exact contains_replicate_q_false n
  · exact hasSubstr_replicate_false (x := backquote) (by decide) (by decide)
  · exact hasSubstr_replicate_false (x := 'C') (by decide) (by decide)
  · show classifyL (firstLineL (List.replicate n 'q')) ≠ "greeting"
    have hfl : firstLineL (List.replicate n 'q') = List.replicate n 'q' := by
      unfold firstLineL
      exact takeWhile_eq_self_of
        (fun c hc => by rw [List.eq_of_mem_replicate hc]; decide)
    rw [hfl]
    intro hgr
    have hiff := (classifyL_greeting_iff (List.replicate n 'q')).mp hgr
    rw [normL_replicate_q, isGreetingL_replicate_q] at hiff
    exact absurd hiff.1 (by decide)

theorem toLower_space {c : Char} (h : isPySpace c = true) : c.toLower = c := by
  unfold isPySpace at h
  simp only [Bool.or_eq_true, decide_eq_true_eq] at h
  rcases h with ((((h | h) | h) | h) | h) | h <;> subst h <;> decide

theorem hasSubstr_allws_false {l pat : List Char} {x : Char}
    (hws : ∀ c ∈ l, isPySpace c = true) (hx : x ∈ pat)
    (hxs : isPySpace x = false) : hasSubstr l pat = false := by
  cases hs : hasSubstr l pat
  · rfl
  · rw [hws x (hasSubstr_mem hs x hx)] at hxs
    exact absurd hxs (by decide)

theorem hasSubstrCI_allws_false {l pat : List Char} {x : Char}
    (hws : ∀ c ∈ l, isPySpace c = true) (hx : x ∈ pat)
    (hxs : isPySpace x = false) : hasSubstrCI l pat = false := by
  cases hs : hasSubstrCI l pat
  · rfl
  · have hmem := hasSubstrCI_mem hs x hx
    rw [lowerL] at hmem
    obtain ⟨c, hc, hcl⟩ := List.mem_map.mp hmem
    have hcs := hws c hc
    rw [toLower_space hcs] at hcl
    rw [← hcl] at hxs
    rw [hcs] at hxs
    exact absurd hxs (by decide)

theorem cleanStage_allws {l : List Char} (hws : ∀ c ∈ l, isPySpace c = true) :
    cleanStage l = [] := by
  unfold cleanStage
  rw [replaceAllCI_id _ (hasSubstrCI_allws_false (x := 'a') hws (by decide) (by decide))]
  rw [removeInst_id (hasSubstr_allws_false (x := '[') hws (by decide) (by decide))]
  rw [replaceAll_id _ (hasSubstr_allws_false (x := '<') hws (by decide) (by decide))]
  exact pstrip_nil hws

/-- String reconstruction from its character list. -/
theorem mk_data (s : String) : String.mk s.data = s := rfl

/-! ## Claims -/

/-- C1 counterexample: the text made of one `python`-tagged opening fence,
one line of code and one bare closing fence has balanced fence counts, yet
`format_response` gives it one more fence marker (the repair step counts
every marker as opening, so its closing count is zero), and the output's
fence counts are unbalanced. -/
theorem balanced_fence_gets_extra_fence :
    specFenceScan (("```python\nprint(1)\n```" : String).data) = (1, 1) ∧
    countFences ((format_response "```python\nprint(1)\n```").data) =
      countFences (("```python\nprint(1)\n```" : String).data) + 1 ∧
    specFenceScan ((format_response "```python\nprint(1)\n```").data) = (1, 2) := by
  refine ⟨by decide, by decide, by decide⟩

/-- C1 (amended): the fence-repair step of `format_response` appends exactly
one closing fence whenever the text contains any fence marker at all —
because the `open_blocks` pattern also matches bare closing fences, the
computed closing count is always zero — so already-balanced texts receive an
extra fence rather than being left alone. -/
theorem fence_repair_always_appends (l : List Char)
    (h : hasSubstr l (("```" : String).data) = true) :
    fenceFix l = l ++ ("\n```" : String).data := by
  unfold fenceFix
  rw [h, if_pos rfl, openFenceCount_eq]
  rw [if_pos (show ((countFences l : Int) > (countFences l : Int) - (countFences l : Int)) from by
    have hc := countFences_pos h
    omega)]

/-- C1 witness: the repair step applied to a single bare fence marker. -/
theorem fence_repair_always_appends_witness :
    fenceFix (("```" : String).data) = ("```" : String).data ++ ("\n```" : String).data :=
  fence_repair_always_appends _ (by decide)

/-- C2 counterexample: `"hi there"` is not a member of the greeting-word set,
yet `classify_query` returns `greeting` for it — greeting detection is a
substring test, not an exact-match test. -/
theorem classify_greeting_substring_counterexample :
    classify_query "hi there" = "greeting" ∧ normStr "hi there" ∉ greetingWords := by
  refine ⟨by decide, by decide⟩

/-- C2 (amended): `classify_query` returns `greeting` exactly when some
greeting word occurs as a substring of the normalised prompt and no
technical, debugging or developer signal matches; in particular every prompt
exactly equal to a greeting word is classified `greeting`, but exact
equality is not necessary. -/
theorem classify_greeting_characterization :
    (∀ s : String, classify_query s = "greeting" ↔
      (isGreetingL (normL s.data) = true ∧ isTechL (normL s.data) = false ∧
       isDebugL (normL s.data) = false ∧ isDevL (normL s.data) = false)) ∧
    (∀ w, w ∈ greetingWords → classify_query w = "greeting") := by
  constructor
  · intro s
    exact classifyL_greeting_iff s.data
  · decide

/-- C2 witness: the exact greeting word `"hello"` and the non-exact prompt
`"hi there"` are both classified `greeting`. -/
theorem classify_greeting_characterization_witness :
    classify_query "hello" = "greeting" ∧ classify_query "hi there" = "greeting" :=
  ⟨classify_greeting_characterization.2 "hello" (by decide),
   (classify_greeting_characterization.1 "hi there").mpr (by decide)⟩

/-- C3 counterexample: `"who created python"` contains the technical keyword
`python` yet is classified `developer`, because the developer branch outranks
the tech branch in the cascade. -/
theorem classify_tech_developer_counterexample :
    isTechL (normL (("who created python" : String).data)) = true ∧
    classify_query "who created python" = "developer" := by
  refine ⟨by decide, by decide⟩

/-- C3 (amended): a prompt with a technical signal is classified
`hybrid_greeting_tech` when a greeting word is also present, `developer`
when no greeting word is present but a developer pattern matches, and `tech`
otherwise — never `debugging` or `general`. -/
theorem classify_tech_branches (s : String)
    (ht : isTechL (normL s.data) = true) :
    classify_query s =
      (if isGreetingL (normL s.data) = true then "hybrid_greeting_tech"
       else if isDevL (normL s.data) = true then "developer" else "tech") := by
  show classifyL s.data = _
  unfold classifyL
  cases hg : isGreetingL (normL s.data) <;> cases hd : isDebugL (normL s.data) <;>
    cases hv : isDevL (normL s.data) <;> simp [hg, ht, hd, hv]

/-- C3 witness: the keyword prompt `"python"` is classified `tech`. -/
theorem classify_tech_branches_witness : classify_query "python" = "tech" := by
  rw [classify_tech_branches "python" (by decide)]
  decide

/-- C4 counterexample: two stores of distinct turns under one conversation
identifier leave a single retrievable turn — the second store overwrites the
first row instead of appending. -/
theorem store_chat_single_row_counterexample :
    get_chat_history (store_chat (store_chat [] "c" "u" "first question" "first answer" none 0 "t1")
        "c" "u" "second question" "second answer" none 0 "t2") "c" =
      [{ user := "second question", ai := "second answer" }] ∧
    (get_chat_history (store_chat (store_chat [] "c" "u" "first question" "first answer" none 0 "t1")
        "c" "u" "second question" "second answer" none 0 "t2") "c").length ≠ 2 := by
  refine ⟨by decide, by decide⟩

/-- C4 (amended): `store_chat` merges on the primary key `chat_id`, so a
later store for the same conversation completely overwrites an earlier one —
storing twice under one identifier equals storing only the second turn, and
only the most recent turn remains retrievable (last-write-wins), not all
turns in chronological order. -/
theorem store_chat_overwrites (db : List ChatRow) (cid u1 m1 a1 : String)
    (o1 : Option String) (w1 : Nat) (t1 : String) (u2 m2 a2 : String)
    (o2 : Option String) (w2 : Nat) (t2 : String) :
    store_chat (store_chat db cid u1 m1 a1 o1 w1 t1) cid u2 m2 a2 o2 w2 t2 =
      store_chat db cid u2 m2 a2 o2 w2 t2 := by
  unfold store_chat
  exact mergeRow_absorb rfl

/-- C5 counterexample: an assistant text consisting of an
`[INST]...[/INST]` span is erased by `store_chat`, so the fetched turn's
assistant text differs from the stored text even modulo whitespace
trimming. -/
theorem store_roundtrip_inst_counterexample :
    get_chat_history (store_chat [] "c" "u" "a question" "[INST]hidden[/INST]" none 0 "t") "c" =
      [{ user := "a question", ai := "" }] ∧
    pstripS "[INST]hidden[/INST]" ≠ "" := by
  refine ⟨by decide, by decide⟩

/-- C5 (amended): for assistant texts free of the `[INST]...[/INST]` and
`<s>` cleaning triggers, and with at least one of the two texts nonempty
after trimming, storing a turn and immediately fetching the conversation's
history returns the user text unchanged and the assistant text whitespace-
trimmed, provided the table's primary keys are distinct. -/
theorem store_roundtrip (db : List ChatRow) (cid uid u a : String) (w : Nat) (ts : String)
    (hnd : (db.map (fun x => x.chat_id)).Nodup)
    (hin : hasSubstrS a "[INST]" = false)
    (hse : hasSubstrS a "<s>" = false)
    (hkeep : u ≠ "" ∨ pstripS a ≠ "") :
    get_chat_history (store_chat db cid uid u a none w ts) cid = [⟨u, pstripS a⟩] := by
  have hclean : cleanAiS a = pstripS a := by
    unfold cleanAiS cleanAiL pstripS
    rw [removeInst_id hin, replaceAll_id _ hse]
  rw [get_after_store hnd (by rw [hclean]; exact hkeep), hclean]

/-- C5 witness: a concrete store-then-fetch round trip. -/
theorem store_roundtrip_witness :
    get_chat_history (store_chat [] "c9" "u9" "my question" " my answer " none 0 "t9") "c9" =
      [⟨"my question", pstripS " my answer "⟩] :=
  store_roundtrip [] "c9" "u9" "my question" " my answer " 0 "t9"
    (by simp) (by decide) (by decide) (by decide)

/-- C6 counterexample: a text with one balanced pair of fence markers and
length within the 50..3000 bounds on which `format_response` is not
idempotent — the second application appends yet another fence and doubles
the language label. -/
theorem format_not_idempotent_counterexample :
    specFenceScan (("A sample code snippet appears below for the test. ```python\nprint(1)\n```" : String).data) = (1, 1) ∧
    50 ≤ ("A sample code snippet appears below for the test. ```python\nprint(1)\n```" : String).length ∧
    ("A sample code snippet appears below for the test. ```python\nprint(1)\n```" : String).length ≤ 3000 ∧
    format_response (format_response "A sample code snippet appears below for the test. ```python\nprint(1)\n```") ≠
      format_response "A sample code snippet appears below for the test. ```python\nprint(1)\n```" := by
  refine ⟨by decide, by decide, by decide, by decide⟩

/-- C6 (amended): `format_response` is idempotent on texts that are already
clean in the strong sense of `Tidy` — no code fences at all, none of the
cleaning-stage triggers, a first line not classified as a greeting — and of
length within the 50..3000 bounds; on such texts it is the identity. -/
theorem format_idempotent_on_tidy (s : String) (ht : Tidy s)
    (h1 : 50 ≤ s.length) (h2 : s.length ≤ 3000) :
    format_response (format_response s) = format_response s := by
  have hlen : s.length = s.data.length := rfl
  have hid : format_response s = s := by
    have hf := formatL_tidy ht
    unfold format_response
    rw [hf]
    unfold lengthStep
    rw [if_neg (by omega), if_neg (by omega)]
  simp only [hid]

/-- C6 witness: a tidy sixty-character text. -/
theorem format_idempotent_on_tidy_witness :
    format_response (format_response (String.mk (List.replicate 60 'q'))) =
      format_response (String.mk (List.replicate 60 'q')) :=
  format_idempotent_on_tidy (String.mk (List.replicate 60 'q'))
    (tidy_replicate_q 60 (by decide)) (by decide) (by decide)

/-- C7: when the transport fails on all attempts, `query_groq` makes exactly
three attempts, sleeps 1 then 2 seconds (exponential backoff), returns — not
raises — the formatted error string embedding the failure reason, that
string contains `"Error"`, and the `/query` handler still persists it as the
assistant turn of the conversation.  The hypotheses ask that the failure
reason not interact with the formatter's or the store's cleaning rules,
which any plain reason text satisfies. -/
theorem groq_failure_returns_error_and_persists
    (db : List ChatRow) (oracle : Nat → Except String String)
    (cid uid prompt ts e : String) (dd : Bool)
    (hO : ∀ n, oracle n = Except.error e)
    (hskip : ¬(classify_query prompt = "greeting" ∧ has_welcome_been_shown db cid ≠ 0))
    (hfmt : format_response (groqFailMsg e) = groqFailMsg e)
    (hin : hasSubstrS (groqFailMsg e) "[INST]" = false)
    (hse : hasSubstrS (groqFailMsg e) "<s>" = false)
    (hnd : (db.map (fun x => x.chat_id)).Nodup) :
    query_groq db oracle cid prompt dd =
      { reply := groqFailMsg e, calls := 3, sleeps := [1, 2] } ∧
    hasSubstrS (query_groq db oracle cid prompt dd).reply "Error" = true ∧
    get_chat_history (get_response db oracle prompt cid uid dd ts).1 cid =
      [⟨prompt, groqFailMsg e⟩] := by
  have hq : query_groq db oracle cid prompt dd =
      { reply := groqFailMsg e, calls := 3, sleeps := [1, 2] } := by
    unfold query_groq
    rw [if_neg hskip]
    exact groqTry_allFail hO
  refine ⟨hq, ?_, ?_⟩
  · rw [hq]
    exact hasSubstr_error_prefix e
  · show get_chat_history (store_chat db cid uid prompt
        (format_response (query_groq db oracle cid prompt dd).reply) none 0 ts) cid = _
    rw [hq]
    show get_chat_history (store_chat db cid uid prompt
        (format_response (groqFailMsg e)) none 0 ts) cid = _
    rw [hfmt]
    have hai : cleanAiS (groqFailMsg e) = groqFailMsg e := cleanAi_groqFailMsg hin hse
    rw [get_after_store hnd (Or.inr (by rw [hai]; exact groqFailMsg_ne_empty e)), hai]

/-- C7 witness: an always-failing transport with reason `"boom"` on a fresh
conversation. -/
theorem groq_failure_returns_error_and_persists_witness :
    query_groq [] (fun _ => Except.error "boom") "c1" "explain quicksort" false =
      { reply := groqFailMsg "boom", calls := 3, sleeps := [1, 2] } ∧
    hasSubstrS (query_groq [] (fun _ => Except.error "boom") "c1" "explain quicksort" false).reply "Error" = true ∧
    get_chat_history (get_response [] (fun _ => Except.error "boom") "explain quicksort" "c1" "u1" false "ts").1 "c1" =
      [⟨"explain quicksort", groqFailMsg "boom"⟩] :=
  groq_failure_returns_error_and_persists [] (fun _ => Except.error "boom")
    "c1" "u1" "explain quicksort" "ts" "boom" false
    (fun _ => rfl) (by decide) (by decide) (by decide) (by decide) (by simp)

/-- C8: when the prompt is classified `greeting` and the conversation's
welcome flag is set, `query_groq` returns the fixed prompt-for-next-query
string with zero transport attempts — the remote endpoint is never
consulted on this path. -/
theorem greeting_welcome_skips_remote
    (db : List ChatRow) (oracle : Nat → Except String String)
    (cid prompt : String) (dd : Bool)
    (hmode : classify_query prompt = "greeting")
    (hflag : has_welcome_been_shown db cid ≠ 0) :
    query_groq db oracle cid prompt dd =
      { reply := "Please provide your next query.", calls := 0, sleeps := [] } := by
  unfold query_groq
  rw [if_pos ⟨hmode, hflag⟩]

/-- C8 witness: prompt `"hi"` on a conversation whose stored row has the
welcome flag set. -/
theorem greeting_welcome_skips_remote_witness :
    query_groq [{ chat_id := "c1", user_id := "u", user_msg := "hi", ai_msg := "welcome",
                  timestamp := "t", title := "T", welcome_shown := 1 }]
        (fun _ => Except.ok "a reply") "c1" "hi" false =
      { reply := "Please provide your next query.", calls := 0, sleeps := [] } :=
  greeting_welcome_skips_remote _ _ _ _ _ (by decide) (by decide)

/-- C9 counterexample: a raw completion text of length 4000 with no code
fences — 4000 spaces — that `format_response` does not truncate to its first
3000 characters plus the trim marker: the cleaning stage empties it, and the
fixed no-response message is returned instead. -/
theorem format_truncation_counterexample :
    (String.mk (List.replicate 4000 ' ')).length = 4000 ∧
    hasSubstr (String.mk (List.replicate 4000 ' ')).data (("```" : String).data) = false ∧
    format_response (String.mk (List.replicate 4000 ' ')) = errNoResp ∧
    (format_response (String.mk (List.replicate 4000 ' '))).length ≠ 3023 := by
  have hws : ∀ c ∈ (List.replicate 4000 ' '), isPySpace c = true := by
    intro c hc
    rw [List.eq_of_mem_replicate hc]
    decide
  have hfmt : format_response (String.mk (List.replicate 4000 ' ')) = errNoResp := by
    show String.mk (formatL (List.replicate 4000 ' ')) = errNoResp
    unfold formatL
    rw [cleanStage_allws hws,
      if_pos (show ([] : List Char).isEmpty = true from rfl)]
  refine ⟨?_, ?_, hfmt, ?_⟩
  · show (List.replicate 4000 ' ').length = 4000
    rw [List.length_replicate]
  · exact hasSubstr_allws_false (x := backquote) hws (by decide) (by decide)
  · rw [hfmt]
    decide

/-- C9 (amended): on text that survives the cleaning and formatting stages
unchanged (`Tidy`: no persona token, no instruction delimiters, not
whitespace-trimmable at the ends, no blank-line runs, no bullet dashes, no
code fences, first line not a greeting), `format_response` hard-truncates
anything longer than 3000 characters to its first 3000 characters plus the
trim marker, and appends the prompt for more detail to anything shorter than
50 characters. -/
theorem format_truncates_tidy (s : String) (ht : Tidy s) :
    (3000 < s.length →
      (format_response s).data = s.data.take 3000 ++ ("... (response trimmed)." : String).data) ∧
    (s.length < 50 →
      (format_response s).data = s.data ++ (" Please provide more details if needed." : String).data) := by
  have hf : (format_response s).data = lengthStep s.data := formatL_tidy ht
  have hlen : s.length = s.data.length := rfl
  constructor
  · intro h3
    rw [hf]
    unfold lengthStep
    rw [if_pos (by omega)]
  · intro h5
    rw [hf]
    unfold lengthStep
    rw [if_neg (by omega), if_pos (by omega)]

/-- C9 witness: a 4000-character fence-free text that is truncated to 3000
characters plus the marker, and a 10-character text that receives the
more-details prompt. -/
theorem format_truncates_tidy_witness :
    (format_response (String.mk (List.replicate 4000 'q'))).data =
      (List.replicate 4000 'q').take 3000 ++ ("... (response trimmed)." : String).data ∧
    (format_response (String.mk (List.replicate 10 'q'))).data =
      List.replicate 10 'q' ++ (" Please provide more details if needed." : String).data :=
  ⟨(format_truncates_tidy (String.mk (List.replicate 4000 'q'))
        (tidy_replicate_q 4000 (by decide))).1
      (by show 3000 < (List.replicate 4000 'q').length; rw [List.length_replicate]; norm_num),
   (format_truncates_tidy (String.mk (List.replicate 10 'q'))
        (tidy_replicate_q 10 (by decide))).2
      (by show (List.replicate 10 'q').length < 50; rw [List.length_replicate]; norm_num)⟩

theorem formatL_ne_nil (l : List Char) : formatL l ≠ [] := by
  unfold formatL
  by_cases hc : (cleanStage l).isEmpty = true
  · rw [if_pos hc]
    decide
  · rw [if_neg hc]
    exact lengthStep_ne_nil (greetStep (middleStage (cleanStage l)))

theorem formatL_le3023 (l : List Char) : (formatL l).length ≤ 3023 := by
  unfold formatL
  by_cases hc : (cleanStage l).isEmpty = true
  · rw [if_pos hc]
    decide
  · rw [if_neg hc]
    exact lengthStep_le (greetStep (middleStage (cleanStage l)))

theorem formatL_allws {l : List Char} (hws : ∀ c ∈ l, isPySpace c = true) :
    formatL l = errNoResp.data := by
  unfold formatL
  rw [cleanStage_allws hws,
    if_pos (show ([] : List Char).isEmpty = true from rfl)]

/-- C10: for every input string, `format_response` returns a nonempty string
of at most 3023 characters (3000 plus the 23-character trim marker), and
input whose cleaned form is empty — in particular any all-whitespace input,
the empty string included — yields the fixed no-response error message. -/
theorem format_output_bounds (s : String) :
    format_response s ≠ "" ∧ (format_response s).length ≤ 3023 ∧
    ((∀ c ∈ s.data, isPySpace c = true) → format_response s = errNoResp) := by
  refine ⟨?_, ?_, ?_⟩
  · intro he
    exact formatL_ne_nil s.data (congrArg String.data he)
  · exact formatL_le3023 s.data
  · intro hws
    show String.mk (formatL s.data) = errNoResp
    rw [formatL_allws hws]

/-- C10 witness: the empty string and a whitespace-only string. -/
theorem format_output_bounds_witness :
    format_response "" ≠ "" ∧ (format_response "").length ≤ 3023 ∧
    format_response "" = errNoResp ∧ format_response "   " = errNoResp :=
  ⟨(format_output_bounds "").1, (format_output_bounds "").2.1,
   (format_output_bounds "").2.2 (by decide),
   (format_output_bounds "   ").2.2 (by decide)⟩

end Backalgo
